import Mathlib

/-!
# Verification of the Stratagem stock-analysis app (`spy_app.py`)

Shallow embedding of the observable behaviour of the single source file
`spy_app.py`: the three tool functions (`web_search`, `get_stock_info`,
`scrape_pricing_page`), the startup API-key check, and the button-driven
main action (agent invocation, warning, download button).

Modelling conventions:
  * Python strings are Lean `String`s; where line/character surgery is
    needed we work on `String.data : List Char`.
  * A provider call that may raise is modelled as an `Except String α`
    argument: `.error msg` is "the provider raised an exception whose
    `str()` is `msg`", `.ok v` is a received value.
  * Python `str.splitlines` is modelled as splitting on `'\n'` (the only
    line terminator produced by the pipeline at hand).
  * An HTML document as parsed by BeautifulSoup is a forest of nodes,
    each either a text node or a named element with children; `get_text`
    concatenates all text nodes, `decompose` of script/style elements
    removes those subtrees.
-/

set_option autoImplicit false

namespace SpyApp

/-! ## Char/string helpers mirroring the Python primitives used -/

/-- Characters stripped by Python's default `str.strip()`. -/
def isPySpace (c : Char) : Bool :=
  c = ' ' || c = '\t' || c = '\n' || c = '\r' || c = '\x0b' || c = '\x0c'

/-- Python `str.strip()` on a character list. -/
def pyStrip (l : List Char) : List Char :=
  ((l.dropWhile isPySpace).reverse.dropWhile isPySpace).reverse

/-- Split a character list at every newline, keeping (possibly empty)
segments; models the segments `text.split("\n")` would give. -/
def splitOnNl : List Char → List (List Char)
  | [] => [[]]
  | c :: rest =>
      let r := splitOnNl rest
      if c = '\n' then [] :: r else (c :: r.headD []) :: r.tail

/-- Python `str.splitlines()` (with `'\n'` as the line terminator):
no lines for the empty string, and a trailing terminator does not open
a final empty line. -/
def pySplitlines (l : List Char) : List (List Char) :=
  if l.isEmpty then []
  else if l.getLast? = some '\n' then (splitOnNl l).dropLast
  else splitOnNl l

/-- Python `line.split("  ")`: split at each non-overlapping occurrence
of two consecutive spaces, scanning left to right. -/
def split2sp : List Char → List (List Char)
  | [] => [[]]
  | [c] => [[c]]
  | c :: d :: rest =>
      if c = ' ' && d = ' ' then [] :: split2sp rest
      else
        let r := split2sp (d :: rest)
        (c :: r.headD []) :: r.tail

/-- Python `"\n".join(...)` at the character-list level. -/
def joinNl : List (List Char) → List Char
  | [] => []
  | [p] => p
  | p :: ps => p ++ '\n' :: joinNl ps

/-- Python `sep.join(items)` on strings. -/
def pyJoin (sep : String) : List String → String
  | [] => ""
  | [a] => a
  | a :: rest => a ++ sep ++ pyJoin sep rest

/-- Spec-side description of "concatenated, separated by blank lines":
each adjacent pair of items is separated by exactly two newlines. -/
def joinBlank : List (List Char) → List Char
  | [] => []
  | [r] => r
  | r :: rs => r ++ '\n' :: '\n' :: joinBlank rs

/-- Predicate: `p` begins the string `s`. -/
def beginsWith (p s : String) : Prop := p.data <+: s.data

/-- Predicate: `m` occurs somewhere inside `s`. -/
def containsStr (m s : String) : Prop := m.data <:+: s.data

/-! ## The HTML document model (BeautifulSoup boundary) -/

mutual

/-- A parsed HTML node: a text node or a named element with children. -/
inductive HNode where
  | text : List Char → HNode
  | elem : String → HNodes → HNode

/-- A list of sibling HTML nodes (the children of an element, or the
top-level forest of the parsed document). -/
inductive HNodes where
  | nil : HNodes
  | cons : HNode → HNodes → HNodes

end

mutual

/-- Model of `decompose()` of every `<script>`/`<style>` element: `none` when the
node itself is removed, otherwise the node with its subtree cleaned. -/
def stripN : HNode → Option HNode
  | .text s => some (.text s)
  | .elem n cs =>
      if n = "script" || n = "style" then none else some (.elem n (stripL cs))

/-- Model of `decompose()` of script/style elements over a sibling list. -/
def stripL : HNodes → HNodes
  | .nil => .nil
  | .cons x xs =>
      match stripN x with
      | none => stripL xs
      | some y => .cons y (stripL xs)

end

mutual

/-- Model of `soup.get_text()` on one node: all text content, concatenated. -/
def textN : HNode → List Char
  | .text s => s
  | .elem _ cs => textL cs

/-- Model of `soup.get_text()` on a sibling list. -/
def textL : HNodes → List Char
  | .nil => []
  | .cons x xs => textN x ++ textL xs

end

/-! ## The three tool functions of `spy_app.py` -/

/-- Model of `web_search(query)`: `"\n\n".join(obj["content"] for obj in
response["results"])` on success, `f"Search failed: {e}"` on any raised
exception.  The provider response is modelled as the list of the
`content` fields of the result items, in response order. -/
def web_search (resp : Except String (List String)) : String :=
  match resp with
  | .ok results => pyJoin "\n\n" results
  | .error e => "Search failed: " ++ e

/-- The `yfinance` `stock.info` mapping, restricted to the four fields
the program reads; `none` models a key absent from the provider
response, `some v` the `str()` rendering of the present value. -/
structure StockInfo where
  currentPrice : Option String
  marketCap : Option String
  fiftyTwoWeekHigh : Option String
  recommendationKey : Option String

/-- Model of `get_stock_info(ticker)`: the fixed four-field f-string template on
success (`info.get(key, 'N/A')` for each field), `f"Stock fetch failed:
{e}"` on any raised exception.  The template string in the source is an
indented triple-quoted literal: it begins with a newline, indents every
field line with eight spaces, and ends with a newline plus eight
spaces. -/
def get_stock_info (resp : Except String StockInfo) : String :=
  match resp with
  | .ok info =>
      "\n        Current Price: $" ++ info.currentPrice.getD "N/A" ++
      "\n        Market Cap: $" ++ info.marketCap.getD "N/A" ++
      "\n        52 Week High: $" ++ info.fiftyTwoWeekHigh.getD "N/A" ++
      "\n        Recommendation: " ++ info.recommendationKey.getD "N/A" ++
      "\n        "
  | .error e => "Stock fetch failed: " ++ e

/-- Result of `soup.get_text()` after decomposing script/style elements. -/
def soupText (doc : HNodes) : List Char := textL (stripL doc)

/-- The generator-pipeline of `scrape_pricing_page`: strip each line of
the text, split each line at double spaces, strip each phrase. -/
def pageChunks (doc : HNodes) : List (List Char) :=
  (((splitOnNl (soupText doc)).map pyStrip).map
    (fun line => (split2sp line).map pyStrip)).flatten

/-- Model of `'\n'.join(chunk for chunk in chunks if chunk)[:5000]`. -/
def extract_text (doc : HNodes) : List Char :=
  (joinNl ((pageChunks doc).filter (fun c => !c.isEmpty))).take 5000

/-- Model of `scrape_pricing_page(url)`: on a received HTTP response (any status
code paired with the parsed body) the extraction pipeline; on any raised
exception `f"Error scraping: {e}"`.  The source never reads
`response.status_code`, so the model carries the status only to show it
is ignored. -/
def scrape_pricing_page (resp : Except String (Nat × HNodes)) : String :=
  match resp with
  | .ok (_status, doc) => String.mk (extract_text doc)
  | .error e => "Error scraping: " ++ e

/-! ## Startup key check and main action -/

/-- The fixed startup error message (`st.error` at line 70). -/
def startupErrorMsg : String := "🚨 Missing API Keys! Please check your .env file."

/-- Outcome of the module-level startup section (lines 62-74). -/
inductive StartupResult where
  /-- Case `st.error(msg)` followed by `st.stop()`: no UI, no agent. -/
  | halted : String → StartupResult
  /-- An uncaught exception escaped the startup section. -/
  | raised : String → StartupResult
  /-- Startup completed; the script proceeds to build the UI and (on
  demand) the agent, with these values for `openai_key`/`tavily_key`. -/
  | running : String → Option String → StartupResult
deriving DecidableEq

/-- The startup check of `spy_app.py`:
`openai_key = os.getenv("OPENAI_API_KEY")`, `tavily_key =
os.getenv("TAVILY_API_KEY")`; if `openai_key` is falsy, fall back to
`st.secrets` — halting with the fixed message only when
`"OPENAI_API_KEY"` is not in `st.secrets`; reading
`st.secrets["TAVILY_API_KEY"]` raises when that key is absent.
`envO`/`envT` are the two environment variables (`none` = unset),
`secO`/`secT` the two `st.secrets` entries (`none` = absent). -/
def startup (envO envT : Option String) (secO secT : Option String) : StartupResult :=
  if envO.getD "" = "" then
    match secO with
    | some k =>
        match secT with
        | some t => .running k (some t)
        | none => .raised "KeyError: TAVILY_API_KEY"
    | none => .halted startupErrorMsg
  else
    .running (envO.getD "") envT

/-- Whether a startup outcome lets the script reach agent construction. -/
def agentConstructible : StartupResult → Bool
  | .running _ _ => true
  | _ => false

/-- The fixed empty-target warning (`st.warning` at line 215). -/
def emptyTargetWarning : String := "⚠️ Protocol Halted: Please define a Target Asset."

/-- Observable effects of one rerun of the main script section
(lines 152-215). -/
structure ActionEffects where
  /-- How many times `agent.chat` ran. -/
  agentCalls : Nat
  /-- The `st.warning` text, when one was shown. -/
  warning : Option String
  /-- The download button's `(data, file_name)`, when offered. -/
  download : Option (String × String)
deriving DecidableEq

/-- The main branch of `spy_app.py`:
`if start_btn and target_company:` run the agent once and offer the
download of `response.response` under `f"Stratagem_{target_company}_Report.md"`;
`elif start_btn and not target_company:` show the fixed warning.
`report` is the text the agent session returns. -/
def run_app (startBtn : Bool) (target : String) (report : String) : ActionEffects :=
  if startBtn && !(target == "") then
    { agentCalls := 1
      warning := none
      download := some (report, "Stratagem_" ++ target ++ "_Report.md") }
  else if startBtn && (target == "") then
    { agentCalls := 0, warning := some emptyTargetWarning, download := none }
  else
    { agentCalls := 0, warning := none, download := none }

/-! ## Template lines of the quote-lookup output -/

/-- The price line of `get_stock_info`'s template (eight-space indent,
`$` prefixed to the rendered field). -/
def priceLine (info : StockInfo) : List Char :=
  "        Current Price: $".data ++ (info.currentPrice.getD "N/A").data

/-- The market-cap line of `get_stock_info`'s template. -/
def capLine (info : StockInfo) : List Char :=
  "        Market Cap: $".data ++ (info.marketCap.getD "N/A").data

/-- The 52-week-high line of `get_stock_info`'s template. -/
def highLine (info : StockInfo) : List Char :=
  "        52 Week High: $".data ++ (info.fiftyTwoWeekHigh.getD "N/A").data

/-- The recommendation line of `get_stock_info`'s template. -/
def recLine (info : StockInfo) : List Char :=
  "        Recommendation: ".data ++ (info.recommendationKey.getD "N/A").data

/-- A line is non-blank when Python `strip()` leaves something of it. -/
def nonBlank (l : List Char) : Bool := !(pyStrip l).isEmpty

/-- A concrete well-formed provider response, used as sample input. -/
def sampleInfo : StockInfo := ⟨some "123.45", none, some "999", some "buy"⟩

/-! ## Small helper lemmas -/

/-- Appending strings appends their character lists. -/
theorem strData_append (s t : String) : (s ++ t).data = s.data ++ t.data := by
  cases s; cases t; rfl

/-- Error strings built as `fixed-text-plus-space ++ message` begin with
the fixed text and contain the message. -/
theorem errorString_spec (p q e : String) (h : q.data = p.data ++ [' ']) :
    beginsWith p (q ++ e) ∧ containsStr e (q ++ e) := by
  constructor
  · exact ⟨' ' :: e.data, by simp [strData_append, h]⟩
  · exact ⟨q.data, [], by simp [strData_append]⟩

/-! ## Lemmas on the newline splitter and joiner -/

theorem splitOnNl_ne_nil : ∀ (l : List Char), splitOnNl l ≠ [] := by
  intro l
  cases l with
  | nil => simp [splitOnNl]
  | cons c rest =>
      simp only [splitOnNl]
      split <;> simp

theorem splitOnNl_cons_nl (l : List Char) :
    splitOnNl ('\n' :: l) = [] :: splitOnNl l := by
  simp [splitOnNl]

theorem splitOnNl_cons (c : Char) (l : List Char) (h : c ≠ '\n') :
    splitOnNl (c :: l)
      = (c :: (splitOnNl l).headD []) :: (splitOnNl l).tail := by
  simp [splitOnNl, h]

theorem splitOnNl_exists_cons (l : List Char) :
    ∃ h0 t0, splitOnNl l = h0 :: t0 := by
  cases hx : splitOnNl l with
  | nil => exact absurd hx (splitOnNl_ne_nil l)
  | cons a b => exact ⟨a, b, rfl⟩

theorem splitOnNl_no_nl : ∀ (a : List Char), '\n' ∉ a → splitOnNl a = [a] := by
  intro a
  induction a with
  | nil => intro _; rfl
  | cons c rest ih =>
      intro h
      rw [List.mem_cons, not_or] at h
      obtain ⟨hc, hrest⟩ := h
      rw [splitOnNl_cons c rest (fun e => hc e.symm), ih hrest]
      simp

theorem splitOnNl_append (a b : List Char) (h : '\n' ∉ a) :
    splitOnNl (a ++ '\n' :: b) = a :: splitOnNl b := by
  induction a with
  | nil => simpa using splitOnNl_cons_nl b
  | cons c rest ih =>
      rw [List.mem_cons, not_or] at h
      obtain ⟨hc, hrest⟩ := h
      rw [List.cons_append, splitOnNl_cons c _ (fun e => hc e.symm), ih hrest]
      simp

theorem splitOnNl_concat_nl : ∀ (x : List Char),
    splitOnNl (x ++ ['\n']) = splitOnNl x ++ [[]] := by
  intro x
  induction x with
  | nil => simp [splitOnNl]
  | cons c rest ih =>
      by_cases hc : c = '\n'
      · subst hc
        rw [List.cons_append, splitOnNl_cons_nl, splitOnNl_cons_nl, ih]
        simp
      · rw [List.cons_append, splitOnNl_cons c _ hc, splitOnNl_cons c rest hc, ih]
        obtain ⟨h0, t0, he⟩ := splitOnNl_exists_cons rest
        rw [he]
        simp

theorem joinNl_cons_cons (p q : List Char) (ps : List (List Char)) :
    joinNl (p :: q :: ps) = p ++ '\n' :: joinNl (q :: ps) := by
  simp [joinNl]

theorem splitOnNl_joinNl : ∀ (qs : List (List Char)), qs ≠ [] →
    (∀ q ∈ qs, '\n' ∉ q) → splitOnNl (joinNl qs) = qs := by
  intro qs
  induction qs with
  | nil => intro h; exact absurd rfl h
  | cons q rest ih =>
      intro _ hq
      cases rest with
      | nil => simpa [joinNl] using splitOnNl_no_nl q (hq q (by simp))
      | cons q' rest' =>
          rw [joinNl_cons_cons, splitOnNl_append _ _ (hq q (by simp)),
            ih (by simp) (fun x hx => hq x (by simp [hx]))]

theorem joinNl_ne_nil : ∀ (qs : List (List Char)), qs ≠ [] →
    (∀ q ∈ qs, q ≠ []) → joinNl qs ≠ [] := by
  intro qs hne hq
  cases qs with
  | nil => exact absurd rfl hne
  | cons q rest =>
      cases rest with
      | nil => simpa [joinNl] using hq q (by simp)
      | cons q' rest' => simp [joinNl_cons_cons]

theorem joinNl_getLast?_ne_nl : ∀ (qs : List (List Char)), qs ≠ [] →
    (∀ q ∈ qs, q ≠ [] ∧ '\n' ∉ q) → (joinNl qs).getLast? ≠ some '\n' := by
  intro qs
  induction qs with
  | nil => intro h; exact absurd rfl h
  | cons q rest ih =>
      intro _ hq
      cases rest with
      | nil =>
          show (joinNl [q]).getLast? ≠ some '\n'
          have hqne : q ≠ [] := (hq q (by simp)).1
          cases hx : q.getLast? with
          | none => simp [joinNl, hx]
          | some c =>
              have hcq : c ∈ q := List.mem_of_mem_getLast? (by rw [hx]; rfl)
              have : c ≠ '\n' := fun e => (hq q (by simp)).2 (e ▸ hcq)
              simp [joinNl, hx, this]
      | cons q' rest' =>
          rw [joinNl_cons_cons, List.getLast?_append_cons]
          have hjne : joinNl (q' :: rest') ≠ [] :=
            joinNl_ne_nil _ (by simp) (fun x hx => (hq x (by simp [hx])).1)
          rw [show '\n' :: joinNl (q' :: rest') = ['\n'] ++ joinNl (q' :: rest') from rfl,
            List.getLast?_append_of_ne_nil _ hjne]
          exact ih (by simp) (fun x hx => hq x (by simp [hx]))

theorem take_chunk_good {p : List Char} (hp : p ≠ [] ∧ '\n' ∉ p) {n : Nat}
    (hn : n ≠ 0) : p.take n ≠ [] ∧ '\n' ∉ p.take n := by
  constructor
  · intro h
    rcases List.take_eq_nil_iff.mp h with h | h
    · exact hn h
    · exact hp.1 h
  · exact fun h => hp.2 (List.take_subset n p h)

/-- A prefix of `'\n'`-joined non-empty newline-free chunks is again a
`'\n'`-join of non-empty newline-free chunks, possibly followed by one
dangling newline. -/
theorem take_joinNl : ∀ (ps : List (List Char)),
    (∀ p ∈ ps, p ≠ [] ∧ '\n' ∉ p) → ∀ (n : Nat),
    ∃ (qs : List (List Char)) (b : Bool),
      (joinNl ps).take n = joinNl qs ++ (if b then ['\n'] else []) ∧
      (∀ q ∈ qs, q ≠ [] ∧ '\n' ∉ q) ∧ (b = true → qs ≠ []) := by
  intro ps
  induction ps with
  | nil =>
      intro _ n
      exact ⟨[], false, by simp [joinNl], by simp, by simp⟩
  | cons p rest ih =>
      intro hps n
      cases rest with
      | nil =>
          by_cases hn : n = 0
          · exact ⟨[], false, by simp [joinNl, hn], by simp, by simp⟩
          · refine ⟨[p.take n], false, by simp [joinNl], ?_, by simp⟩
            intro q hq
            rw [List.mem_singleton] at hq
            subst hq
            exact take_chunk_good (hps p (by simp)) hn
      | cons p' rest' =>
          rw [joinNl_cons_cons, List.take_append_eq_append_take]
          by_cases hle : n ≤ p.length
          · have h0 : n - p.length = 0 := Nat.sub_eq_zero_of_le hle
            rw [h0]
            simp only [List.take_zero, List.append_nil]
            by_cases hn : n = 0
            · exact ⟨[], false, by simp [joinNl, hn], by simp, by simp⟩
            · refine ⟨[p.take n], false, by simp [joinNl], ?_, by simp⟩
              intro q hq
              rw [List.mem_singleton] at hq
              subst hq
              exact take_chunk_good (hps p (by simp)) hn
          · have hgt : p.length < n := Nat.lt_of_not_le hle
            have hpn : p.take n = p := List.take_of_length_le (Nat.le_of_lt hgt)
            obtain ⟨m, hm⟩ : ∃ m, n - p.length = m + 1 := ⟨n - p.length - 1, by omega⟩
            rw [hpn, hm, List.take_succ_cons]
            obtain ⟨qs', b', heq, hqs', hb'⟩ :=
              ih (fun x hx => hps x (by simp [hx])) m
            cases qs' with
            | nil =>
                have hb0 : b' = false := by
                  cases b' with
                  | false => rfl
                  | true => exact absurd rfl (hb' rfl)
                rw [hb0] at heq
                simp only [if_neg Bool.false_ne_true, List.append_nil, joinNl] at heq
                refine ⟨[p], true, ?_, ?_, by simp⟩
                · rw [heq]
                  simp [joinNl]
                · intro q hq
                  rw [List.mem_singleton] at hq
                  subst hq
                  exact hps _ (List.mem_cons_self _ _)
            | cons q0 qs'' =>
                refine ⟨p :: q0 :: qs'', b', ?_, ?_, by simp⟩
                · rw [heq, joinNl_cons_cons, List.append_assoc]
                  simp
                · intro q hq
                  rcases List.mem_cons.mp hq with h | h
                  · subst h
                    exact hps _ (List.mem_cons_self _ _)
                  · exact hqs' q h

/-- Splitting such a truncated join back into Python lines yields no
empty line. -/
theorem pySplitlines_joinNl_good (qs : List (List Char))
    (hqs : ∀ q ∈ qs, q ≠ [] ∧ '\n' ∉ q) (b : Bool) (hb : b = true → qs ≠ []) :
    ∀ q ∈ pySplitlines (joinNl qs ++ (if b then ['\n'] else [])), q ≠ [] := by
  cases b with
  | false =>
      simp only [if_neg Bool.false_ne_true, List.append_nil]
      cases hqe : qs with
      | nil => simp [joinNl, pySplitlines]
      | cons q0 rest =>
          rw [← hqe]
          have hne : joinNl qs ≠ [] :=
            joinNl_ne_nil qs (by rw [hqe]; simp) (fun x hx => (hqs x hx).1)
          have hlast : (joinNl qs).getLast? ≠ some '\n' :=
            joinNl_getLast?_ne_nl qs (by rw [hqe]; simp) hqs
          unfold pySplitlines
          rw [if_neg (by simpa [List.isEmpty_iff] using hne), if_neg hlast,
            splitOnNl_joinNl qs (by rw [hqe]; simp) (fun x hx => (hqs x hx).2)]
          exact fun q hq => (hqs q hq).1
  | true =>
      have hqne := hb rfl
      have hif : (if true = true then ['\n'] else ([] : List Char)) = ['\n'] := rfl
      rw [hif]
      have hne : joinNl qs ++ ['\n'] ≠ [] := by simp
      have hlast : (joinNl qs ++ ['\n']).getLast? = some '\n' := by
        rw [List.getLast?_append_cons]
        rfl
      unfold pySplitlines
      rw [if_neg (by simp [List.isEmpty_iff]), if_pos hlast,
        splitOnNl_concat_nl, List.dropLast_concat,
        splitOnNl_joinNl qs hqne (fun x hx => (hqs x hx).2)]
      exact fun q hq => (hqs q hq).1

/-! ## Lemmas on stripping and double-space splitting -/

theorem mem_dropWhile {α : Type} (p : α → Bool) :
    ∀ (l : List α) (c : α), c ∈ l → p c = false → c ∈ l.dropWhile p := by
  intro l
  induction l with
  | nil => intro c hc; cases hc
  | cons x xs ih =>
      intro c hc hp
      rw [List.dropWhile_cons]
      by_cases hx : p x = true
      · rw [if_pos hx]
        rcases List.mem_cons.mp hc with h | h
        · subst h
          rw [hp] at hx
          cases hx
        · exact ih c h hp
      · rw [if_neg hx]
        exact hc

theorem pyStrip_ne_nil {l : List Char} {c : Char} (hc : c ∈ l)
    (hp : isPySpace c = false) : pyStrip l ≠ [] := by
  have h1 : c ∈ l.dropWhile isPySpace := mem_dropWhile _ l c hc hp
  have h2 : c ∈ (l.dropWhile isPySpace).reverse := List.mem_reverse.mpr h1
  have h3 : c ∈ (l.dropWhile isPySpace).reverse.dropWhile isPySpace :=
    mem_dropWhile _ _ c h2 hp
  have h4 : c ∈ pyStrip l := List.mem_reverse.mpr h3
  exact List.ne_nil_of_mem h4

theorem pyStrip_subset (l : List Char) : ∀ c ∈ pyStrip l, c ∈ l := by
  intro c hc
  unfold pyStrip at hc
  rw [List.mem_reverse] at hc
  have h1 := (List.dropWhile_sublist (l := (l.dropWhile isPySpace).reverse)
    (p := isPySpace)).subset hc
  rw [List.mem_reverse] at h1
  exact (List.dropWhile_sublist (l := l) (p := isPySpace)).subset h1

theorem nonBlank_of_mem {l : List Char} {c : Char} (hc : c ∈ l)
    (hp : isPySpace c = false) : nonBlank l = true := by
  unfold nonBlank
  have h := pyStrip_ne_nil hc hp
  cases hx : pyStrip l with
  | nil => exact absurd hx h
  | cons _ _ => rfl

theorem split2sp_ne_nil : ∀ (l : List Char), split2sp l ≠ []
  | [] => by simp [split2sp]
  | [_] => by simp [split2sp]
  | _ :: _ :: _ => by
      simp only [split2sp]
      split <;> simp

theorem split2sp_subset : ∀ (l p : List Char), p ∈ split2sp l → ∀ c ∈ p, c ∈ l
  | [], p, hp => by
      simp [split2sp] at hp
      subst hp
      simp
  | [a], p, hp => by
      simp [split2sp] at hp
      subst hp
      simp
  | a :: b :: rest, p, hp => by
      by_cases hab : (a = ' ' && b = ' ') = true
      · rw [show split2sp (a :: b :: rest) = [] :: split2sp rest from by
          simp [split2sp, hab]] at hp
        rcases List.mem_cons.mp hp with h | h
        · subst h
          simp
        · intro c hc
          have := split2sp_subset rest p h c hc
          simp [this]
      · rw [show split2sp (a :: b :: rest)
            = (a :: (split2sp (b :: rest)).headD []) :: (split2sp (b :: rest)).tail
          from by simp [split2sp, hab]] at hp
        obtain ⟨h0, t0, he⟩ : ∃ h0 t0, split2sp (b :: rest) = h0 :: t0 := by
          cases hx : split2sp (b :: rest) with
          | nil => exact absurd hx (split2sp_ne_nil _)
          | cons x y => exact ⟨x, y, rfl⟩
        rw [he] at hp
        simp only [List.headD_cons, List.tail_cons] at hp
        rcases List.mem_cons.mp hp with h | h
        · subst h
          intro c hc
          rcases List.mem_cons.mp hc with h' | h'
          · subst h'
            simp
          · have := split2sp_subset (b :: rest) h0 (by rw [he]; simp) c h'
            exact List.mem_cons_of_mem a this
        · intro c hc
          have := split2sp_subset (b :: rest) p (by rw [he]; simp [h]) c hc
          exact List.mem_cons_of_mem a this

theorem mem_splitOnNl_no_nl : ∀ (l : List Char), ∀ p ∈ splitOnNl l, '\n' ∉ p := by
  intro l
  induction l with
  | nil =>
      intro p hp
      simp [splitOnNl] at hp
      subst hp
      simp
  | cons c rest ih =>
      intro p hp
      by_cases hc : c = '\n'
      · subst hc
        rw [splitOnNl_cons_nl] at hp
        rcases List.mem_cons.mp hp with h | h
        · subst h
          simp
        · exact ih p h
      · rw [splitOnNl_cons c rest hc] at hp
        obtain ⟨h0, t0, he⟩ := splitOnNl_exists_cons rest
        rw [he] at hp
        simp only [List.headD_cons, List.tail_cons] at hp
        rcases List.mem_cons.mp hp with h | h
        · subst h
          intro hm
          rcases List.mem_cons.mp hm with h' | h'
          · exact hc h'.symm
          · exact ih h0 (by rw [he]; simp) h'
        · exact ih p (by rw [he]; simp [h])

theorem pageChunks_no_nl (doc : HNodes) : ∀ p ∈ pageChunks doc, '\n' ∉ p := by
  intro p hp
  unfold pageChunks at hp
  obtain ⟨f, hf, hpf⟩ := List.mem_flatten.mp hp
  obtain ⟨line, hline, hfe⟩ := List.mem_map.mp hf
  obtain ⟨l0, hl0, hle⟩ := List.mem_map.mp hline
  subst hfe
  obtain ⟨ph, hph, hpe⟩ := List.mem_map.mp hpf
  subst hpe
  intro hmem
  have m1 : '\n' ∈ ph := pyStrip_subset ph '\n' hmem
  have m2 : '\n' ∈ line := split2sp_subset line ph hph '\n' m1
  subst hle
  have m3 : '\n' ∈ l0 := pyStrip_subset l0 '\n' m2
  exact mem_splitOnNl_no_nl _ l0 hl0 m3

/-- The chunk list actually joined by `scrape_pricing_page` consists of
non-empty newline-free pieces. -/
theorem pageChunks_filtered_good (doc : HNodes) :
    ∀ p ∈ (pageChunks doc).filter (fun c => !c.isEmpty), p ≠ [] ∧ '\n' ∉ p := by
  intro p hp
  obtain ⟨hmem, hne⟩ := List.mem_filter.mp hp
  constructor
  · intro he
    subst he
    simp at hne
  · exact pageChunks_no_nl doc p hmem

/-- No line of the extracted page text is empty. -/
theorem extract_lines_ne_nil (doc : HNodes) :
    ∀ q ∈ pySplitlines (extract_text doc), q ≠ [] := by
  unfold extract_text
  obtain ⟨qs, b, heq, hqs, hb⟩ :=
    take_joinNl ((pageChunks doc).filter (fun c => !c.isEmpty))
      (pageChunks_filtered_good doc) 5000
  rw [heq]
  exact pySplitlines_joinNl_good qs hqs b hb

/-! ## Idempotence of script/style removal -/

mutual

theorem stripN_idem : ∀ (x y : HNode), stripN x = some y → stripN y = some y
  | .text s, y, h => by
      simp only [stripN, Option.some.injEq] at h
      subst h
      rfl
  | .elem n cs, y, h => by
      by_cases hn : (n = "script" || n = "style") = true
      · simp [stripN, hn] at h
      · simp only [stripN, hn, Bool.false_eq_true, if_false, Option.some.injEq] at h
        subst h
        simp only [stripN, hn, Bool.false_eq_true, if_false, Option.some.injEq,
          HNode.elem.injEq]
        exact ⟨trivial, stripL_idem cs⟩

theorem stripL_idem : ∀ (xs : HNodes), stripL (stripL xs) = stripL xs
  | .nil => rfl
  | .cons x xs => by
      cases hx : stripN x with
      | none => simp [stripL, hx, stripL_idem xs]
      | some y => simp [stripL, hx, stripN_idem x y hx, stripL_idem xs]

end

/-! ## Claim theorems -/

/-- C1. For every exception raised by a provider inside any of the
three tool functions, the function returns normally (it is a total
function into strings) and the returned string begins with that
function's fixed error text ("Search failed:", "Stock fetch failed:",
"Error scraping:") and contains the exception's message. -/
theorem claim_C1 (e : String) :
    web_search (.error e) = "Search failed: " ++ e ∧
    beginsWith "Search failed:" (web_search (.error e)) ∧
    containsStr e (web_search (.error e)) ∧
    get_stock_info (.error e) = "Stock fetch failed: " ++ e ∧
    beginsWith "Stock fetch failed:" (get_stock_info (.error e)) ∧
    containsStr e (get_stock_info (.error e)) ∧
    scrape_pricing_page (.error e) = "Error scraping: " ++ e ∧
    beginsWith "Error scraping:" (scrape_pricing_page (.error e)) ∧
    containsStr e (scrape_pricing_page (.error e)) := by
  have h1 := errorString_spec "Search failed:" "Search failed: " e (by decide)
  have h2 := errorString_spec "Stock fetch failed:" "Stock fetch failed: " e (by decide)
  have h3 := errorString_spec "Error scraping:" "Error scraping: " e (by decide)
  exact ⟨rfl, h1.1, h1.2, rfl, h2.1, h2.2, rfl, h3.1, h3.2⟩

/-- C2, counterexample. The claim says that the absence of *either*
required key halts startup.  But with the model-provider key present in
the environment and the search-provider key absent everywhere, startup
does not halt and the script proceeds to where the agent is built. -/
theorem claim_C2_counterexample :
    startup (some "sk-test") none none none ≠ .halted startupErrorMsg ∧
    agentConstructible (startup (some "sk-test") none none none) = true := by
  constructor
  · intro h
    simp [startup] at h
  · rfl

/-- C2, amended. Startup halts with the fixed user-visible message
(before any UI interaction, the agent never being constructed) exactly
when the model-provider key is falsy in the environment and absent from
`st.secrets`; the absence of the search-provider key alone never
triggers the halt. -/
theorem claim_C2 (envO envT secO secT : Option String) :
    (startup envO envT secO secT = .halted startupErrorMsg ↔
      (envO.getD "" = "" ∧ secO = none)) ∧
    agentConstructible (.halted startupErrorMsg) = false := by
  refine ⟨⟨fun h => ?_, fun h => ?_⟩, rfl⟩
  · by_cases hO : envO.getD "" = ""
    · cases secO with
      | none => exact ⟨hO, rfl⟩
      | some k =>
          cases secT with
          | none => simp [startup, hO] at h
          | some t => simp [startup, hO] at h
    · simp [startup, hO] at h
  · obtain ⟨h1, h2⟩ := h
    subst h2
    simp [startup, h1]

/-- The quote-lookup output is its template lines glued by newlines,
with a leading newline and a trailing indentation run. -/
theorem stock_data_eq (info : StockInfo) :
    (get_stock_info (.ok info)).data =
      '\n' :: (priceLine info ++ '\n' :: (capLine info ++ '\n' ::
        (highLine info ++ '\n' :: (recLine info ++ '\n' :: "        ".data)))) := by
  show ("\n        Current Price: $" ++ info.currentPrice.getD "N/A" ++
      "\n        Market Cap: $" ++ info.marketCap.getD "N/A" ++
      "\n        52 Week High: $" ++ info.fiftyTwoWeekHigh.getD "N/A" ++
      "\n        Recommendation: " ++ info.recommendationKey.getD "N/A" ++
      "\n        ").data = _
  have e1 : "\n        Current Price: $".data
      = '\n' :: "        Current Price: $".data := rfl
  have e2 : "\n        Market Cap: $".data
      = '\n' :: "        Market Cap: $".data := rfl
  have e3 : "\n        52 Week High: $".data
      = '\n' :: "        52 Week High: $".data := rfl
  have e4 : "\n        Recommendation: ".data
      = '\n' :: "        Recommendation: ".data := rfl
  have e5 : "\n        ".data = '\n' :: "        ".data := rfl
  simp only [strData_append, priceLine, capLine, highLine, recLine,
    e1, e2, e3, e4, e5, List.cons_append, List.append_assoc]

/-- A helper for walking to the last character over `++ '\n' ::`. -/
theorem glast_helper (a x : List Char) (hx : x.getLast? = some ' ')
    (hxne : x ≠ []) : (a ++ '\n' :: x).getLast? = some ' ' := by
  rw [List.getLast?_append_cons,
    show '\n' :: x = ['\n'] ++ x from rfl,
    List.getLast?_append_of_ne_nil _ hxne, hx]

/-- C3, counterexample. The provider response with all four fields
absent: the rendered quote string does not consist of exactly four
lines — the template's leading newline and trailing indentation give it
six (Python `splitlines` semantics). -/
theorem claim_C3_counterexample :
    (pySplitlines (get_stock_info (.ok ⟨none, none, none, none⟩)).data).length ≠ 4 := by
  decide

/-- C3, amended. For every well-formed provider response whose
rendered field values contain no newline, the quote-lookup output
contains exactly four *non-blank* lines, in the fixed field order
price, market cap, 52-week high, recommendation (besides these the
output has a leading empty line and a trailing whitespace-only line
coming from the triple-quoted template); every field absent from the
provider response renders literally as "N/A", as the all-absent
response shows. -/
theorem claim_C3 (info : StockInfo)
    (h1 : '\n' ∉ (info.currentPrice.getD "N/A").data)
    (h2 : '\n' ∉ (info.marketCap.getD "N/A").data)
    (h3 : '\n' ∉ (info.fiftyTwoWeekHigh.getD "N/A").data)
    (h4 : '\n' ∉ (info.recommendationKey.getD "N/A").data) :
    (pySplitlines (get_stock_info (.ok info)).data).filter nonBlank
      = [priceLine info, capLine info, highLine info, recLine info] ∧
    get_stock_info (.ok (⟨none, none, none, none⟩ : StockInfo)) =
      "\n        Current Price: $N/A\n        Market Cap: $N/A\n        52 Week High: $N/A\n        Recommendation: N/A\n        " := by
  refine ⟨?_, rfl⟩
  have hp1 : '\n' ∉ priceLine info := by
    unfold priceLine
    rw [List.mem_append, not_or]
    exact ⟨by decide, h1⟩
  have hp2 : '\n' ∉ capLine info := by
    unfold capLine
    rw [List.mem_append, not_or]
    exact ⟨by decide, h2⟩
  have hp3 : '\n' ∉ highLine info := by
    unfold highLine
    rw [List.mem_append, not_or]
    exact ⟨by decide, h3⟩
  have hp4 : '\n' ∉ recLine info := by
    unfold recLine
    rw [List.mem_append, not_or]
    exact ⟨by decide, h4⟩
  rw [stock_data_eq info]
  have g0 : ("        ".data : List Char).getLast? = some ' ' := by decide
  have g1 : (recLine info ++ '\n' :: "        ".data).getLast? = some ' ' :=
    glast_helper _ _ g0 (by decide)
  have g2 : (highLine info ++ '\n' :: (recLine info ++ '\n' :: "        ".data)).getLast?
      = some ' ' := glast_helper _ _ g1 (by simp)
  have g3 : (capLine info ++ '\n' :: (highLine info ++ '\n' ::
      (recLine info ++ '\n' :: "        ".data))).getLast? = some ' ' :=
    glast_helper _ _ g2 (by simp)
  have g4 : (priceLine info ++ '\n' :: (capLine info ++ '\n' :: (highLine info ++ '\n' ::
      (recLine info ++ '\n' :: "        ".data)))).getLast? = some ' ' :=
    glast_helper _ _ g3 (by simp)
  have g5 : ('\n' :: (priceLine info ++ '\n' :: (capLine info ++ '\n' ::
      (highLine info ++ '\n' :: (recLine info ++ '\n' :: "        ".data))))).getLast?
      = some ' ' := by
    rw [show ('\n' :: (priceLine info ++ '\n' :: (capLine info ++ '\n' ::
        (highLine info ++ '\n' :: (recLine info ++ '\n' :: "        ".data)))))
      = ['\n'] ++ (priceLine info ++ '\n' :: (capLine info ++ '\n' ::
        (highLine info ++ '\n' :: (recLine info ++ '\n' :: "        ".data)))) from rfl,
      List.getLast?_append_of_ne_nil _ (by simp), g4]
  have hps : pySplitlines ('\n' :: (priceLine info ++ '\n' :: (capLine info ++ '\n' ::
      (highLine info ++ '\n' :: (recLine info ++ '\n' :: "        ".data)))))
      = splitOnNl ('\n' :: (priceLine info ++ '\n' :: (capLine info ++ '\n' ::
        (highLine info ++ '\n' :: (recLine info ++ '\n' :: "        ".data))))) := by
    unfold pySplitlines
    rw [if_neg (by simp), if_neg (by rw [g5]; simp)]
  rw [hps, splitOnNl_cons_nl, splitOnNl_append _ _ hp1, splitOnNl_append _ _ hp2,
    splitOnNl_append _ _ hp3, splitOnNl_append _ _ hp4,
    splitOnNl_no_nl "        ".data (by decide)]
  have n0 : nonBlank ([] : List Char) = false := by decide
  have n5 : nonBlank "        ".data = false := by decide
  have n1 : nonBlank (priceLine info) = true :=
    nonBlank_of_mem (c := 'C')
      (List.mem_append_left _ (by decide)) (by decide)
  have n2 : nonBlank (capLine info) = true :=
    nonBlank_of_mem (c := 'M')
      (List.mem_append_left _ (by decide)) (by decide)
  have n3 : nonBlank (highLine info) = true :=
    nonBlank_of_mem (c := 'W')
      (List.mem_append_left _ (by decide)) (by decide)
  have n4 : nonBlank (recLine info) = true :=
    nonBlank_of_mem (c := 'R')
      (List.mem_append_left _ (by decide)) (by decide)
  simp [List.filter_cons, n0, n1, n2, n3, n4, n5]

/-- Witness for C3 at a concrete well-formed provider response with one
absent field. -/
theorem claim_C3_witness :
    (pySplitlines (get_stock_info (.ok sampleInfo)).data).filter nonBlank
      = [priceLine sampleInfo, capLine sampleInfo, highLine sampleInfo,
          recLine sampleInfo] :=
  (claim_C3 sampleInfo (by decide) (by decide) (by decide) (by decide)).1

/-- C4, counterexample. The claim bounds the result length by 5000
for *every* input, but the failure branch is not truncated: an
exception whose message has 4985 characters yields an error string of
length 5001. -/
theorem claim_C4_counterexample :
    5000 < (scrape_pricing_page (.error (String.mk (List.replicate 4985 'a')))).length := by
  have h : scrape_pricing_page (.error (String.mk (List.replicate 4985 'a')))
      = "Error scraping: " ++ String.mk (List.replicate 4985 'a') := rfl
  have hl : ∀ s : String, s.length = s.data.length := fun _ => rfl
  rw [h, hl, strData_append, List.length_append, List.length_replicate]
  decide

/-- C4, amended. For every response the page fetch receives
(regardless of the size of the fetched page), the extraction branch
returns a string of length at most 5000; only the exception branch,
which returns "Error scraping:" plus the exception message, is not
truncated. -/
theorem claim_C4 (status : Nat) (doc : HNodes) :
    (scrape_pricing_page (.ok (status, doc))).length ≤ 5000 := by
  show (extract_text doc).length ≤ 5000
  unfold extract_text
  exact List.length_take_le 5000 _

/-- C5. Triggering the action with an empty target name never
invokes the agent and always yields the fixed warning text; triggering
it with a non-empty target name invokes the agent exactly once (and no
warning is shown). -/
theorem claim_C5 (target report : String) :
    (run_app true "" report).agentCalls = 0 ∧
    (run_app true "" report).warning = some emptyTargetWarning ∧
    (target ≠ "" →
      (run_app true target report).agentCalls = 1 ∧
      (run_app true target report).warning = none) := by
  refine ⟨rfl, rfl, fun h => ?_⟩
  have hb : (target == "") = false := by
    simp only [beq_eq_false_iff_ne, ne_eq]
    exact h
  constructor <;> simp [run_app, hb]

/-- Witness for C5 at the concrete target "Nvidia". -/
theorem claim_C5_witness :
    (run_app true "Nvidia" "some report").agentCalls = 1 ∧
    (run_app true "Nvidia" "some report").warning = none :=
  (claim_C5 "Nvidia" "some report").2.2 (by decide)

/-- C6. For every parsed input document — in particular documents
containing script or style elements — the page-text extraction output
contains no empty line (Python `splitlines` view), and text content
inside script/style elements cannot reach the output: the result on any
document equals the result on the document with all script/style
subtrees removed. -/
theorem claim_C6 (status : Nat) (doc : HNodes) :
    ((pySplitlines (scrape_pricing_page (.ok (status, doc))).data).all
        (fun p => !p.isEmpty)) = true ∧
    scrape_pricing_page (.ok (status, doc))
      = scrape_pricing_page (.ok (status, stripL doc)) := by
  constructor
  · rw [List.all_eq_true]
    intro p hp
    have hd : (scrape_pricing_page (.ok (status, doc))).data = extract_text doc := rfl
    rw [hd] at hp
    have hne := extract_lines_ne_nil doc p hp
    cases p with
    | nil => exact absurd rfl hne
    | cons _ _ => rfl
  · show String.mk (extract_text doc) = String.mk (extract_text (stripL doc))
    have h : extract_text (stripL doc) = extract_text doc := by
      unfold extract_text pageChunks soupText
      rw [stripL_idem doc]
    rw [h]

/-- C7. On a successful run the export action's payload is the
report text verbatim and the suggested filename for target `t` is
`"Stratagem_" ++ t ++ "_Report.md"`; in particular target "Nvidia"
yields "Stratagem_Nvidia_Report.md". -/
theorem claim_C7 (target report : String) (h : target ≠ "") :
    (run_app true target report).download
      = some (report, "Stratagem_" ++ target ++ "_Report.md") ∧
    (run_app true "Nvidia" report).download
      = some (report, "Stratagem_Nvidia_Report.md") := by
  have hb : (target == "") = false := by
    simp only [beq_eq_false_iff_ne, ne_eq]
    exact h
  constructor
  · simp [run_app, hb]
  · show some (report, "Stratagem_" ++ "Nvidia" ++ "_Report.md")
      = some (report, "Stratagem_Nvidia_Report.md")
    rfl

/-- Witness for C7 at the concrete target "Tesla". -/
theorem claim_C7_witness :
    (run_app true "Tesla" "dossier body").download
      = some ("dossier body", "Stratagem_Tesla_Report.md") := by
  have h := (claim_C7 "Tesla" "dossier body" (by decide)).1
  exact h.trans (by decide)

/-- C8. For every successful search-provider response, the search
function returns the textual content fields of all result items, in
response order, separated by blank lines (exactly two newlines between
adjacent items). -/
theorem claim_C8 (results : List String) :
    (web_search (.ok results)).data = joinBlank (results.map String.data) := by
  induction results with
  | nil => rfl
  | cons a rest ih =>
      cases rest with
      | nil => rfl
      | cons b rs =>
          show (a ++ "\n\n" ++ pyJoin "\n\n" (b :: rs)).data
            = a.data ++ '\n' :: '\n' :: joinBlank ((b :: rs).map String.data)
          have ihe : (pyJoin "\n\n" (b :: rs)).data
              = joinBlank ((b :: rs).map String.data) := ih
          simp [strData_append, ihe]

/-- C9. When the search provider succeeds with an empty result
list, the search function returns the empty string — a normal tool
result, not an error-text string. -/
theorem claim_C9 :
    web_search (.ok []) = "" ∧
    ¬ beginsWith "Search failed:" (web_search (.ok [])) := by
  refine ⟨rfl, fun h => ?_⟩
  have hle := h.length_le
  have he : (web_search (.ok [])).data = [] := rfl
  rw [he] at hle
  simp at hle

/-- C10. The page-text extraction never inspects the HTTP response
status: for every received response, whatever its status code, the
result is the extracted truncated text of the body, identical across
all status codes (the "Error scraping:" branch is reserved for raised
exceptions). -/
theorem claim_C10 (s1 s2 : Nat) (doc : HNodes) :
    scrape_pricing_page (.ok (s1, doc)) = scrape_pricing_page (.ok (s2, doc)) ∧
    scrape_pricing_page (.ok (s1, doc)) = String.mk (extract_text doc) :=
  ⟨rfl, rfl⟩

end SpyApp
